import Mathlib

/-!
Shallow embedding of the peeling / density-clustering search of
analysisFunctions.py (class analysis_functions).

Modelling choices, all taken from the source:

* A dataframe row is a `Cell`; a geodataframe is a `List Cell`.  The geohash
  value is the unique row key (modelled as a natural number).  The derived
  columns `cluster`, `desired_area` and `rank_desired_area` are fields with
  the "column absent" state of `cluster` represented by `none`.
* DBSCAN is an external black box.  It only ever sees the centroid array,
  which is an index-aligned pure function of each row geometry, itself a
  function of the geohash key; so a clustering backend is a function
  `Clusterer` from the centroid list, the epsilon radius and the
  min-samples count to a label list (`-1` = noise), exactly the interface
  used at the single call site `_dbscan_clustering`.
* `np.round` on `n_sites * 0.005` is modelled as round-half-to-even of
  `n / 200` over the integers (`roundStep`); the float product agrees with
  the exact value at every relevant magnitude.
* Python `range(a, b, -s)` for `s > 0` is `descRange a b s`; a `range`
  call with step `0` raises `ValueError`, modelled by the `none` result of
  the caller.  A `NameError` from reading a never-assigned loop variable is
  likewise modelled by `none`.
* In-place dataframe mutation (the `cluster` column assignment inside
  `_dbscan_clustering`, and the column drop between peel iterations) is
  modelled by explicit state passing: each function returns the final state
  of the frame it mutated.
* Every function additionally returns the list of DBSCAN invocations it
  performed (pairs of frame size and min-samples), and the refiner also
  logs one `PassLog` per outer pass; these traces are observations of the
  run, used to state the claims about call parameters and scan schedules.
* The `while len(gdf_hotspot) != 0` loop of `find_all_desired_areas` need
  not terminate, so it takes an explicit iteration budget `fuel`; a run
  that still has a non-empty remainder when the budget is exhausted is
  `none`, as is a run that raises.
-/

set_option maxRecDepth 100000

set_option maxHeartbeats 1000000

structure Cell where
  geohash : Nat
  spot : String
  cluster : Option Int := none
  desired_area : Bool := false
  rank_desired_area : Nat := 0
deriving DecidableEq, Repr, Inhabited

/-- A density-clustering backend: centroid list, epsilon, min-samples to
label list, label `-1` meaning noise.  This is the interface of
`DBSCAN(eps, min_samples).fit(hotspot_centroid).labels_`. -/
abbrev Clusterer := List Nat → ℚ → Nat → List Int

/-- The library contract that the label array is index-aligned with the
input coordinate array. -/
def CAligned (C : Clusterer) : Prop :=
  ∀ cents eps n, (C cents eps n).length = cents.length

/-- One DBSCAN invocation record: size of the frame under consideration and
the min-samples parameter passed. -/
abbrev Call := Nat × Nat

/-- Centroid extraction (`_generate_geohash_centroid`): reprojection and
centroid computation are an index-aligned pure map of each row geometry,
which is determined by the geohash key. -/
def _generate_geohash_centroid (gdf : List Cell) : List Nat :=
  gdf.map (·.geohash)

/-- The in-place column assignment `gdf_hotspot['cluster'] = labels`. -/
def applyLabels (gdf : List Cell) (labels : List Int) : List Cell :=
  List.zipWith (fun c l => { c with cluster := some l }) gdf labels

/-- `_dbscan_clustering`: runs the backend, writes the `cluster` column in
place and returns the frame together with `np.unique(labels)` (only the
length and membership of the unique array are ever used). -/
def _dbscan_clustering (C : Clusterer) (gdf : List Cell) (cents : List Nat)
    (eps : ℚ) (n : Nat) : List Cell × List Int :=
  let labels := C cents eps n
  (applyLabels gdf labels, labels.dedup)

/-- `int(np.round(n_sites * 0.005))`: round-half-to-even of `n / 200`. -/
def roundStep (n : Nat) : Nat :=
  let q := n / 200
  let r := n % 200
  if r < 100 then q
  else if 100 < r then q + 1
  else if q % 2 = 0 then q else q + 1

def descRangeAux : Nat → Nat → Nat → Nat → List Nat
  | 0, _, _, _ => []
  | fl + 1, a, b, s =>
    if 0 < s ∧ b < a then a :: descRangeAux fl (a - s) b s else []

/-- Python `range(a, b, -s)` for a positive step `s`: the values
`a, a - s, a - 2s, ...` while they stay strictly above `b`. -/
def descRange (a b s : Nat) : List Nat :=
  descRangeAux (a + 1) a b s

/-- The descent loop of `_determine_start_neighbours`: visit the neighbour
counts in order, one DBSCAN call each, tracking the previous distinct-label
count (initially `1`) and breaking at the first change.  Returns the final
value of the loop variable with the final frame state, plus the call trace;
`none` models the `NameError` of an empty range. -/
def snLoop (C : Clusterer) (cents : List Nat) (eps : ℚ) :
    List Nat → Nat → List Cell → Option (Nat × List Cell) × List Call
  | [], _, _ => (none, [])
  | [n], _, gdf =>
    let r := _dbscan_clustering C gdf cents eps n
    (some (n, r.1), [(gdf.length, n)])
  | n :: m :: rest', past, gdf =>
    let r := _dbscan_clustering C gdf cents eps n
    let cur := r.2.length
    if past ≠ cur then
      (some (n, r.1), [(gdf.length, n)])
    else
      let p := snLoop C cents eps (m :: rest') cur r.1
      (p.1, (gdf.length, n) :: p.2)

/-- `_determine_start_neighbours`: descend from `n_sites` by
`roundStep n_sites`; a zero step is the `ValueError` of `range`, modelled
as `none`.  On success returns `n + steps` and the mutated frame. -/
def _determine_start_neighbours (C : Clusterer) (gdf : List Cell) (eps : ℚ) :
    Option (Nat × List Cell) × List Call :=
  let n_sites := gdf.length
  let cents := _generate_geohash_centroid gdf
  let steps := roundStep n_sites
  if steps = 0 then (none, [])
  else
    match snLoop C cents eps (descRange n_sites 1 steps) 1 gdf with
    | (none, cs) => (none, cs)
    | (some (n, g), cs) => (some (n + steps, g), cs)

/-- Progress record of one outer pass of `_determine_desired_area`:
step granularity, `start_neighbours` and `stop_n_neighbour` on entry and
after the pass, and the scanned neighbour values with the distinct-label
count each produced. -/
structure PassLog where
  steps : Nat
  startB : Nat
  stopB : Nat
  startA : Nat
  stopA : Nat
  scanned : List (Nat × Nat)
deriving DecidableEq, Repr, Inhabited

/-- Mutable state of `_determine_desired_area`: the two search bounds, the
leaked inner-loop variables (`n_neighbours`, `current_len_labels`), the
frame being mutated, the call trace and the pass logs. -/
structure DAState where
  start : Nat
  stop : Nat
  lastScan : Option (Nat × Nat)
  gdf : List Cell
  calls : List Call
  passes : List PassLog
deriving DecidableEq, Repr, Inhabited

/-- The inner scan of `_determine_desired_area` for one pass at granularity
`s`: DBSCAN at each `n`, breaking at the first `n` with exactly 2 distinct
labels, where it sets `stop_n_neighbour = n` and
`start_neighbours = n + steps`.  Also returns the scanned pairs
(value, distinct-label count) of this pass. -/
def innerScan (C : Clusterer) (cents : List Nat) (eps : ℚ) (s : Nat) :
    List Nat → DAState → DAState × List (Nat × Nat)
  | [], st => (st, [])
  | n :: rest, st =>
    let r := _dbscan_clustering C st.gdf cents eps n
    let cur := r.2.length
    let st' : DAState :=
      { st with gdf := r.1, lastScan := some (n, cur),
                calls := st.calls ++ [(st.gdf.length, n)] }
    if cur = 2 then
      ({ st' with stop := n, start := n + s }, [(n, cur)])
    else
      let p := innerScan C cents eps s rest st'
      (p.1, (n, cur) :: p.2)

/-- The outer `while steps > 0` loop of `_determine_desired_area` over the
granularities `[5, 4, 3, 2, 1]`.  After each pass it reads the leaked
`current_len_labels` (a `NameError`, hence `none`, if no scan ever ran) and
resets `start_neighbours` to the leaked `n_neighbours` when that count is
exactly 1, then records the progress line. -/
def outerLoop (C : Clusterer) (cents : List Nat) (eps : ℚ) :
    List Nat → DAState → Option DAState
  | [], st => some st
  | s :: rest, st =>
    let p := innerScan C cents eps s (descRange st.start (st.stop - 1) s) st
    match p.1.lastScan with
    | none => none
    | some (n, cur) =>
      outerLoop C cents eps rest
        { start := if cur = 1 then n else p.1.start,
          stop := p.1.stop,
          lastScan := p.1.lastScan,
          gdf := p.1.gdf,
          calls := p.1.calls,
          passes := p.1.passes ++
            [⟨s, st.start, st.stop, if cur = 1 then n else p.1.start,
              p.1.stop, p.2⟩] }

/-- `_determine_desired_area`, exposing the whole final state. -/
def _determine_desired_area_run (C : Clusterer) (gdf : List Cell)
    (start_neighbours : Nat) (eps : ℚ) : Option DAState :=
  outerLoop C (_generate_geohash_centroid gdf) eps [5, 4, 3, 2, 1]
    ⟨start_neighbours, 1, none, gdf, [], []⟩

/-- `_determine_desired_area`: returns `gdf_current_desired_area`, the frame
carrying the labels of the last DBSCAN call made in the loop. -/
def _determine_desired_area (C : Clusterer) (gdf : List Cell)
    (start_neighbours : Nat) (eps : ℚ) : Option (List Cell) × List Call :=
  match _determine_desired_area_run C gdf start_neighbours eps with
  | none => (none, [])
  | some st => (some st.gdf, st.calls)

/-- One peel iteration, shared by both public operations (the bodies of the
loops in `find_n_desired_areas` and `find_all_desired_areas`): search for
`start_neighbours`, refine, collect the geohashes with a non-noise label as
claimed, and keep the noise rows with the `cluster` column dropped as the
next remainder. -/
def peelStep (C : Clusterer) (eps : ℚ) (gdf_hotspot : List Cell) :
    Option (List Nat × List Cell) × List Call :=
  match _determine_start_neighbours C gdf_hotspot eps with
  | (none, cs) => (none, cs)
  | (some (sn, g1), cs1) =>
    match _determine_desired_area C g1 sn eps with
    | (none, cs2) => (none, cs1 ++ cs2)
    | (some gD, cs2) =>
      let claimed := (gD.filter (fun c => ¬ c.cluster = some (-1))).map (·.geohash)
      let remainder := (gD.filter (fun c => c.cluster = some (-1))).map
        (fun c => { c with cluster := none })
      (some (claimed, remainder), cs1 ++ cs2)

/-- The `for _ in range(n_desired_areas)` loop of `find_n_desired_areas`,
returning the claimed geohash list of each iteration in order. -/
def nIter (C : Clusterer) (eps : ℚ) :
    Nat → List Cell → Option (List (List Nat)) × List Call
  | 0, _ => (some [], [])
  | k + 1, h =>
    match peelStep C eps h with
    | (none, cs) => (none, cs)
    | (some (cl, rem), cs) =>
      match nIter C eps k rem with
      | (none, cs') => (none, cs ++ cs')
      | (some cls, cs') => (some (cl :: cls), cs ++ cs')

/-- `find_n_desired_areas`: run `n_desired_areas` peel iterations over the
hotspot rows, then annotate the original hotspot rows with the boolean
membership of their geohash in the accumulated claimed array. -/
def find_n_desired_areas (C : Clusterer) (gdf_spot : List Cell)
    (n_desired_areas : Nat) (eps : ℚ) : Option (List Cell) × List Call :=
  let hot := gdf_spot.filter (fun c => c.spot == "hotspot")
  match nIter C eps n_desired_areas hot with
  | (none, cs) => (none, cs)
  | (some claims, cs) =>
    (some (hot.map fun c =>
      { c with desired_area := claims.flatten.contains c.geohash }), cs)

/-- The `while len(gdf_hotspot) != 0` loop of `find_all_desired_areas`,
bounded by an explicit iteration budget: the claimed geohash list of
iteration `i` (1-based) is element `i - 1` of the result. -/
def allIter (C : Clusterer) (eps : ℚ) :
    Nat → List Cell → Option (List (List Nat)) × List Call
  | 0, h => (if h = [] then some [] else none, [])
  | fl + 1, h =>
    if h = [] then (some [], [])
    else
      match peelStep C eps h with
      | (none, cs) => (none, cs)
      | (some (cl, rem), cs) =>
        match allIter C eps fl rem with
        | (none, cs') => (none, cs ++ cs')
        | (some cls, cs') => (some (cl :: cls), cs ++ cs')

/-- The `geohash_rank` dictionary build: iteration numbers are written in
order (later writes win) with default `0` for geohashes never claimed. -/
def rankAux (g : Nat) : List (List Nat) → Nat → Nat → Nat
  | [], _, acc => acc
  | l :: rest, i, acc => rankAux g rest (i + 1) (if l.contains g then i else acc)

def rankOf (claims : List (List Nat)) (g : Nat) : Nat :=
  rankAux g claims 1 0

/-- `find_all_desired_areas`: peel until the remainder is exhausted (within
the given budget), then annotate the original hotspot rows with the
iteration rank of their geohash, `0` when never claimed. -/
def find_all_desired_areas (fuel : Nat) (C : Clusterer) (gdf_spot : List Cell)
    (eps : ℚ) : Option (List Cell) × List Call :=
  let hot := gdf_spot.filter (fun c => c.spot == "hotspot")
  match allIter C eps fuel hot with
  | (none, cs) => (none, cs)
  | (some claims, cs) =>
    (some (hot.map fun c =>
      { c with rank_desired_area := rankOf claims c.geohash }), cs)

/-- Distinct-label count produced by the backend on the centroid array of a
frame at a given min-samples value (what `len(np.unique(labels))` is). -/
def cntOf (C : Clusterer) (cents : List Nat) (eps : ℚ) (n : Nat) : Nat :=
  (C cents eps n).dedup.length

/-- Prefix of a scan schedule up to and including the first value
satisfying the predicate (the whole schedule when none does). -/
def takeThrough (p : Nat → Bool) : List Nat → List Nat
  | [] => []
  | n :: rest => if p n then [n] else n :: takeThrough p rest

/-- The neighbour values a refiner pass visits, per the specification: scan
from `start` down to `stop` in decrements of `s`, first value with exactly
2 distinct labels wins and ends the pass. -/
def scanOfPass (cnt : Nat → Nat) (start stop s : Nat) : List Nat :=
  takeThrough (fun n => cnt n = 2) (descRange start (stop - 1) s)

/-- The tracked previous-iteration distinct-label count of the descent in
`_determine_start_neighbours`: `past` before the first step, then the count
of the preceding step. -/
def prevCount (cnt : Nat → Nat) (past : Nat) (l : List Nat) (j : Nat) : Nat :=
  if j = 0 then past else cnt (l.getD (j - 1) 0)

/-! ### Concrete fixtures used by witnesses and counterexamples -/

def mkCell (k : Nat) : Cell := { geohash := k, spot := "hotspot" }

def cellsN (n : Nat) : List Cell := (List.range n).map mkCell

/-- Backend labelling every point as noise (the degrade-gracefully output
the specification itself expects from DBSCAN on small remainders). -/
def constNoiseC : Clusterer := fun ce _ _ => ce.map (fun _ => (-1 : Int))

/-- Backend putting every point into one cluster. -/
def constZeroC : Clusterer := fun ce _ _ => ce.map (fun _ => (0 : Int))

/-- A label list with one non-noise cluster and the rest noise (2 distinct
labels on any input of size at least 2). -/
def twoLabels (ce : List Nat) : List Int :=
  match ce with
  | [] => []
  | _ :: rest => 0 :: rest.map (fun _ => (-1 : Int))

/-- A label list with two non-noise clusters and the rest noise (3 distinct
labels on any input of size at least 3). -/
def threeLabels (ce : List Nat) : List Int :=
  match ce with
  | [] => []
  | [_] => [0]
  | _ :: _ :: rest => 0 :: 1 :: rest.map (fun _ => (-1 : Int))

def twoLabelC : Clusterer := fun ce _ _ => twoLabels ce

def threeC : Clusterer := fun ce _ _ => threeLabels ce

/-- Backend whose distinct-label count changes (1 to 2) when the
min-samples value descends to 99. -/
def chgC : Clusterer := fun ce _ n =>
  if n ≤ 99 then twoLabels ce else ce.map (fun _ => (-1 : Int))

/-- Backend that shows a label-count change at the very top of the descent
(2 distinct labels at min-samples 101) and one all-points cluster at every
other min-samples value. -/
def breakZeroC : Clusterer := fun ce _ n =>
  if n = 101 then twoLabels ce else ce.map (fun _ => (0 : Int))

/-- Backend that shows a label-count change at the very top of the descent
and labels every point as noise at every other min-samples value. -/
def breakNoiseC : Clusterer := fun ce _ n =>
  if n = 101 then twoLabels ce else ce.map (fun _ => (-1 : Int))

/-- Backend yielding exactly 2 distinct labels only at min-samples 5. -/
def o5C : Clusterer := fun ce _ n => if n = 5 then twoLabels ce else threeLabels ce

def coldCell : Cell := { geohash := 5, spot := "coldspot" }

def hotTrueCell : Cell := { geohash := 7, spot := "hotspot", desired_area := true }

/-! ### Basic lemmas about the embedding building blocks -/

theorem descRangeAux_fuel : ∀ (fl₁ fl₂ a b s : Nat), a < fl₁ → a < fl₂ →
    descRangeAux fl₁ a b s = descRangeAux fl₂ a b s := by
  intro fl₁
  induction fl₁ with
  | zero => intro fl₂ a b s h; omega
  | succ fl ih =>
    intro fl₂ a b s h1 h2
    cases fl₂ with
    | zero => omega
    | succ fl₂' =>
      show (if 0 < s ∧ b < a then a :: descRangeAux fl (a - s) b s else []) =
        (if 0 < s ∧ b < a then a :: descRangeAux fl₂' (a - s) b s else [])
      by_cases hc : 0 < s ∧ b < a
      · rw [if_pos hc, if_pos hc, ih fl₂' (a - s) b s (by omega) (by omega)]
      · rw [if_neg hc, if_neg hc]

theorem descRange_eq (a b s : Nat) :
    descRange a b s = if 0 < s ∧ b < a then a :: descRange (a - s) b s else [] := by
  show (if 0 < s ∧ b < a then a :: descRangeAux a (a - s) b s else []) = _
  by_cases hc : 0 < s ∧ b < a
  · rw [if_pos hc, if_pos hc,
      descRangeAux_fuel a (a - s + 1) (a - s) b s (by omega) (by omega)]
    rfl
  · rw [if_neg hc, if_neg hc]

theorem descRange_mem (b s : Nat) : ∀ (a m : Nat),
    m ∈ descRange a b s → b < m ∧ m ≤ a := by
  intro a
  induction a using Nat.strong_induction_on with
  | _ a ih =>
    intro m h
    rw [descRange_eq] at h
    by_cases hc : 0 < s ∧ b < a
    · rw [if_pos hc] at h
      rcases List.mem_cons.mp h with rfl | h2
      · omega
      · have := ih (a - s) (by omega) m h2
        omega
    · rw [if_neg hc] at h
      simp at h

theorem descRange_head (a b s : Nat) (hs : 0 < s) (hba : b < a) :
    descRange a b s = a :: descRange (a - s) b s := by
  rw [descRange_eq]; simp [hs, hba]

theorem applyLabels_length_le (gdf : List Cell) (ls : List Int) :
    (applyLabels gdf ls).length ≤ gdf.length := by
  simp [applyLabels, List.length_zipWith]

theorem applyLabels_length (gdf : List Cell) (ls : List Int)
    (h : gdf.length ≤ ls.length) : (applyLabels gdf ls).length = gdf.length := by
  simp [applyLabels, List.length_zipWith]; omega

theorem applyLabels_map_geohash : ∀ (gdf : List Cell) (ls : List Int),
    gdf.length ≤ ls.length →
    (applyLabels gdf ls).map Cell.geohash = gdf.map Cell.geohash := by
  intro gdf
  induction gdf with
  | nil => intro ls _; rfl
  | cons c rest ih =>
    intro ls h
    cases ls with
    | nil => simp at h
    | cons l ls' =>
      simp only [applyLabels, List.zipWith_cons_cons, List.map_cons] at *
      exact congrArg _ (ih ls' (by simpa using h))

theorem applyLabels_map_spot : ∀ (gdf : List Cell) (ls : List Int),
    gdf.length ≤ ls.length →
    (applyLabels gdf ls).map Cell.spot = gdf.map Cell.spot := by
  intro gdf
  induction gdf with
  | nil => intro ls _; rfl
  | cons c rest ih =>
    intro ls h
    cases ls with
    | nil => simp at h
    | cons l ls' =>
      simp only [applyLabels, List.zipWith_cons_cons, List.map_cons] at *
      exact congrArg _ (ih ls' (by simpa using h))

theorem applyLabels_cluster_isSome : ∀ (gdf : List Cell) (ls : List Int),
    ∀ c ∈ applyLabels gdf ls, c.cluster.isSome := by
  intro gdf
  induction gdf with
  | nil => intro ls c hc; simp [applyLabels] at hc
  | cons a rest ih =>
    intro ls c hc
    cases ls with
    | nil => simp [applyLabels] at hc
    | cons l ls' =>
      simp only [applyLabels, List.zipWith_cons_cons, List.mem_cons] at hc
      rcases hc with rfl | hc
      · rfl
      · exact ih ls' c hc

theorem takeThrough_of_no_match (p : Nat → Bool) : ∀ (l : List Nat),
    (∀ n ∈ l, ¬ p n) → takeThrough p l = l := by
  intro l
  induction l with
  | nil => intro; rfl
  | cons n rest ih =>
    intro h
    have hn : ¬ p n := h n (List.mem_cons_self n rest)
    simp only [takeThrough, Bool.not_eq_true] at *
    simp [hn, ih (fun m hm => h m (List.mem_cons_of_mem n hm))]

theorem takeThrough_of_match (p : Nat → Bool) : ∀ (l₁ : List Nat) (n₀ : Nat) (l₂ : List Nat),
    (∀ n ∈ l₁, ¬ p n) → p n₀ →
    takeThrough p (l₁ ++ n₀ :: l₂) = l₁ ++ [n₀] := by
  intro l₁
  induction l₁ with
  | nil =>
    intro n₀ l₂ _ hp
    simp [takeThrough, hp]
  | cons m rest ih =>
    intro n₀ l₂ h1 hp
    have hm : ¬ p m = true := h1 m (List.mem_cons_self m rest)
    simp only [List.cons_append, takeThrough, hm, if_false]
    simp only [Bool.not_eq_true] at hm
    simp [hm, ih n₀ l₂ (fun x hx => h1 x (List.mem_cons_of_mem m hx)) hp]

theorem prevCount_cons (cnt : Nat → Nat) (past a : Nat) (rest : List Nat) (j : Nat) :
    prevCount cnt past (a :: rest) (j + 1) = prevCount cnt (cnt a) rest j := by
  cases j with
  | zero => simp [prevCount]
  | succ j' => simp [prevCount]

theorem snLoop_len (C : Clusterer) (cents : List Nat) (eps : ℚ) :
    ∀ (l : List Nat) (past : Nat) (gdf : List Cell) (n : Nat) (g' : List Cell),
    (snLoop C cents eps l past gdf).1 = some (n, g') → g'.length ≤ gdf.length := by
  intro l
  induction l with
  | nil => intro past gdf n g' h; simp [snLoop] at h
  | cons a rest ih =>
    intro past gdf n g' h
    cases rest with
    | nil =>
      simp only [snLoop, _dbscan_clustering, Option.some.injEq, Prod.mk.injEq] at h
      rw [← h.2]
      exact applyLabels_length_le gdf _
    | cons m rest' =>
      simp only [snLoop, _dbscan_clustering] at h
      split at h
      · rw [Option.some.injEq, Prod.mk.injEq] at h
        rw [← h.2]
        exact applyLabels_length_le gdf _
      · exact le_trans (ih _ _ n g' h) (applyLabels_length_le gdf _)

theorem snLoop_calls_sound (C : Clusterer) (cents : List Nat) (eps : ℚ) :
    ∀ (l : List Nat) (past : Nat) (gdf : List Cell), l ≠ [] →
    ((snLoop C cents eps l past gdf).1.isSome = true ∧
     ∃ k, 1 ≤ k ∧ k ≤ l.length ∧
       (snLoop C cents eps l past gdf).2.map Prod.snd = l.take k) := by
  intro l
  induction l with
  | nil => intro past gdf h; exact absurd rfl h
  | cons a rest ih =>
    intro past gdf _
    cases rest with
    | nil => exact ⟨rfl, 1, le_refl 1, by simp, by simp [snLoop]⟩
    | cons m rest' =>
      simp only [snLoop, _dbscan_clustering]
      split
      · exact ⟨rfl, 1, le_refl 1, by simp, by simp⟩
      · obtain ⟨h1, k, hk1, hk2, hk3⟩ :=
          ih _ (applyLabels gdf (C cents eps a)) (by simp)
        refine ⟨h1, k + 1, by omega, by simp at hk2 ⊢; omega, ?_⟩
        simp only [List.map_cons, List.take_succ_cons]
        rw [hk3]

theorem snLoop_calls_mem (C : Clusterer) (cents : List Nat) (eps : ℚ) :
    ∀ (l : List Nat) (past : Nat) (gdf : List Cell),
    ∀ c ∈ (snLoop C cents eps l past gdf).2, c.2 ∈ l := by
  intro l
  induction l with
  | nil => intro past gdf c h; simp [snLoop] at h
  | cons a rest ih =>
    intro past gdf c h
    cases rest with
    | nil =>
      simp only [snLoop, List.mem_singleton] at h
      simp [h]
    | cons m rest' =>
      simp only [snLoop, _dbscan_clustering] at h
      split at h
      · simp at h
        simp [h]
      · rcases List.mem_cons.mp h with rfl | h2
        · simp
        · exact List.mem_cons_of_mem a (ih _ _ c h2)

theorem snLoop_mutation (C : Clusterer) (cents : List Nat) (eps : ℚ)
    (hC : ∀ n, (C cents eps n).length = cents.length) :
    ∀ (l : List Nat) (past : Nat) (gdf : List Cell), gdf.length = cents.length →
    ∀ n g', (snLoop C cents eps l past gdf).1 = some (n, g') →
      g'.map Cell.geohash = gdf.map Cell.geohash ∧
      g'.map Cell.spot = gdf.map Cell.spot ∧
      ∀ c ∈ g', c.cluster.isSome := by
  intro l
  induction l with
  | nil => intro past gdf _ n g' h; simp [snLoop] at h
  | cons a rest ih =>
    intro past gdf hlen n g' h
    have hle : gdf.length ≤ (C cents eps a).length := by rw [hC a, hlen]
    cases rest with
    | nil =>
      simp only [snLoop, _dbscan_clustering, Option.some.injEq, Prod.mk.injEq] at h
      rw [← h.2]
      exact ⟨applyLabels_map_geohash gdf _ hle, applyLabels_map_spot gdf _ hle,
        applyLabels_cluster_isSome gdf _⟩
    | cons m rest' =>
      simp only [snLoop, _dbscan_clustering] at h
      split at h
      · rw [Option.some.injEq, Prod.mk.injEq] at h
        rw [← h.2]
        exact ⟨applyLabels_map_geohash gdf _ hle, applyLabels_map_spot gdf _ hle,
          applyLabels_cluster_isSome gdf _⟩
      · have hlen' : (applyLabels gdf (C cents eps a)).length = cents.length := by
          rw [applyLabels_length gdf _ hle, hlen]
        obtain ⟨h1, h2, h3⟩ := ih _ _ hlen' n g' h
        exact ⟨h1.trans (applyLabels_map_geohash gdf _ hle),
          h2.trans (applyLabels_map_spot gdf _ hle), h3⟩

theorem snLoop_first_change (C : Clusterer) (cents : List Nat) (eps : ℚ) :
    ∀ (i : Nat) (l : List Nat) (past : Nat) (gdf : List Cell),
    i < l.length →
    cntOf C cents eps (l.getD i 0) ≠ prevCount (cntOf C cents eps) past l i →
    (∀ j, j < i →
      cntOf C cents eps (l.getD j 0) = prevCount (cntOf C cents eps) past l j) →
    ((snLoop C cents eps l past gdf).1).map Prod.fst = some (l.getD i 0) := by
  intro i
  induction i with
  | zero =>
    intro l past gdf hi hchg _
    match l, hi with
    | [a], _ =>
      simp [snLoop, _dbscan_clustering]
    | a :: m :: rest', _ =>
      simp only [List.getD_cons_zero, prevCount, if_pos rfl] at hchg
      simp only [snLoop, _dbscan_clustering, List.getD_cons_zero]
      rw [if_pos (fun hpc => hchg (by simpa [cntOf] using hpc.symm))]
      rfl
  | succ i ih =>
    intro l past gdf hi hchg hpre
    match l, hi with
    | [a], hi => simp at hi
    | a :: m :: rest', hi =>
      have h0 : cntOf C cents eps a = past := by
        have := hpre 0 (Nat.succ_pos i)
        simpa [prevCount] using this
      simp only [snLoop, _dbscan_clustering]
      have hnc : ¬ past ≠ (C cents eps a).dedup.length := by
        simp only [ne_eq, not_not]
        exact h0.symm
      rw [if_neg hnc]
      have hgd : (a :: m :: rest').getD (i + 1) 0 = (m :: rest').getD i 0 := by
        simp
      rw [hgd]
      rw [hgd, prevCount_cons (cntOf C cents eps) past a (m :: rest') i] at hchg
      refine ih (m :: rest') (cntOf C cents eps a) _ (by simpa using hi) hchg ?_
      intro j hj
      have := hpre (j + 1) (by omega)
      rw [prevCount_cons (cntOf C cents eps) past a (m :: rest') j] at this
      simpa using this

theorem roundStep_eq_zero (n : Nat) (h : n ≤ 100) : roundStep n = 0 := by
  have hq : n / 200 = 0 := Nat.div_eq_of_lt (by omega)
  have hr : n % 200 = n := Nat.mod_eq_of_lt (by omega)
  simp only [roundStep, hq, hr]
  split_ifs <;> omega

theorem roundStep_pos_ge (n : Nat) (h : 1 ≤ roundStep n) : 101 ≤ n := by
  by_contra hn
  push_neg at hn
  rw [roundStep_eq_zero n (by omega)] at h
  omega

theorem dsn_eq_of_snLoop (C : Clusterer) (gdf : List Cell) (eps : ℚ)
    (n : Nat) (g : List Cell) (cs : List Call)
    (hstep : ¬ roundStep gdf.length = 0)
    (hsn : snLoop C (_generate_geohash_centroid gdf) eps
      (descRange gdf.length 1 (roundStep gdf.length)) 1 gdf = (some (n, g), cs)) :
    _determine_start_neighbours C gdf eps =
      (some (n + roundStep gdf.length, g), cs) := by
  simp only [_determine_start_neighbours]
  rw [if_neg hstep, hsn]

theorem dsn_fst_some (C : Clusterer) (gdf : List Cell) (eps : ℚ)
    (r : Nat) (g' : List Cell)
    (h : (_determine_start_neighbours C gdf eps).1 = some (r, g')) :
    ¬ roundStep gdf.length = 0 ∧
    ∃ n cs, snLoop C (_generate_geohash_centroid gdf) eps
      (descRange gdf.length 1 (roundStep gdf.length)) 1 gdf = (some (n, g'), cs) ∧
      r = n + roundStep gdf.length := by
  simp only [_determine_start_neighbours] at h
  by_cases hz : roundStep gdf.length = 0
  · rw [if_pos hz] at h
    simp at h
  · rw [if_neg hz] at h
    refine ⟨hz, ?_⟩
    rcases hsn : snLoop C (_generate_geohash_centroid gdf) eps
      (descRange gdf.length 1 (roundStep gdf.length)) 1 gdf with ⟨o, cs⟩
    rw [hsn] at h
    cases o with
    | none => simp at h
    | some p =>
      rcases p with ⟨n, g⟩
      simp only [Option.some.injEq, Prod.mk.injEq] at h
      refine ⟨n, cs, ?_, h.1.symm⟩
      rw [← h.2]

/-- C3: the descent of NeighborSearch starts at the set size and proceeds on
the schedule of fixed decrements `roundStep`, one DBSCAN call per visited
step, and succeeds — but only under the corrected hypothesis that the
rounded step is at least 1 (which forces at least 101 cells).  The claimed
minimum effective step of 1 does not exist in the code: for non-empty sizes
up to 100 the step rounds to 0 and the `range` construction fails (see the
counterexample). -/
theorem determine_start_neighbours_domain (C : Clusterer) (gdf : List Cell)
    (eps : ℚ) (h : 1 ≤ roundStep gdf.length) :
    ((_determine_start_neighbours C gdf eps).1).isSome = true ∧
    ((_determine_start_neighbours C gdf eps).2.map Prod.snd).head? =
      some gdf.length ∧
    ∃ k, 1 ≤ k ∧
      (_determine_start_neighbours C gdf eps).2.map Prod.snd =
        (descRange gdf.length 1 (roundStep gdf.length)).take k := by
  have h101 := roundStep_pos_ge gdf.length h
  have hcons : descRange gdf.length 1 (roundStep gdf.length) =
      gdf.length :: descRange (gdf.length - roundStep gdf.length) 1
        (roundStep gdf.length) :=
    descRange_head _ _ _ (by omega) (by omega)
  have hne : descRange gdf.length 1 (roundStep gdf.length) ≠ [] := by
    rw [hcons]; simp
  obtain ⟨h1, k, hk1, hk2, hk3⟩ :=
    snLoop_calls_sound C (_generate_geohash_centroid gdf) eps _ 1 gdf hne
  rw [Option.isSome_iff_exists] at h1
  obtain ⟨p, hp⟩ := h1
  rcases p with ⟨n, g⟩
  have hpair : snLoop C (_generate_geohash_centroid gdf) eps
      (descRange gdf.length 1 (roundStep gdf.length)) 1 gdf =
      (some (n, g), (snLoop C (_generate_geohash_centroid gdf) eps
        (descRange gdf.length 1 (roundStep gdf.length)) 1 gdf).2) := by
    rw [← hp]
  have hd := dsn_eq_of_snLoop C gdf eps n g _ (by omega) hpair
  rw [hd]
  refine ⟨rfl, ?_, k, hk1, hk3⟩
  rw [hk3, hcons]
  match k, hk1 with
  | k' + 1, _ => simp

/-- C3 counterexample: on non-empty inputs of sizes 50 and 1 (both below
100, where the claim asserts the descent is still well-defined), the
rounded step is 0 and `_determine_start_neighbours` fails with the range
error instead of performing a descent. -/
theorem determine_start_neighbours_small_cex :
    (_determine_start_neighbours constNoiseC (cellsN 50) 1).1 = none ∧
    (_determine_start_neighbours constNoiseC (cellsN 1) 1).1 = none ∧
    (cellsN 50).length = 50 ∧ (cellsN 1).length = 1 := by
  refine ⟨by decide, by decide, by decide, by decide⟩

theorem determine_start_neighbours_domain_witness :
    ((_determine_start_neighbours twoLabelC (cellsN 101) 1).1).isSome = true ∧
    ((_determine_start_neighbours twoLabelC (cellsN 101) 1).2.map
      Prod.snd).head? = some (cellsN 101).length ∧
    ∃ k, 1 ≤ k ∧
      (_determine_start_neighbours twoLabelC (cellsN 101) 1).2.map Prod.snd =
        (descRange (cellsN 101).length 1 (roundStep (cellsN 101).length)).take k :=
  determine_start_neighbours_domain twoLabelC (cellsN 101) 1 (by decide)

/-- C4: the descent of `_determine_start_neighbours` stops at the first
visited value whose distinct-label count differs from the tracked
previous-iteration count (the tracker starting at 1 before the first
step), and the returned `start_neighbours` is that value plus the step —
the value visited immediately before the change. -/
theorem determine_start_neighbours_first_change (C : Clusterer)
    (gdf : List Cell) (eps : ℚ) (i : Nat)
    (hi : i < (descRange gdf.length 1 (roundStep gdf.length)).length)
    (hchg : cntOf C (_generate_geohash_centroid gdf) eps
        ((descRange gdf.length 1 (roundStep gdf.length)).getD i 0) ≠
      prevCount (cntOf C (_generate_geohash_centroid gdf) eps) 1
        (descRange gdf.length 1 (roundStep gdf.length)) i)
    (hpre : ∀ j, j < i →
      cntOf C (_generate_geohash_centroid gdf) eps
          ((descRange gdf.length 1 (roundStep gdf.length)).getD j 0) =
        prevCount (cntOf C (_generate_geohash_centroid gdf) eps) 1
          (descRange gdf.length 1 (roundStep gdf.length)) j) :
    ((_determine_start_neighbours C gdf eps).1).map Prod.fst =
      some ((descRange gdf.length 1 (roundStep gdf.length)).getD i 0 +
        roundStep gdf.length) := by
  have hz : ¬ roundStep gdf.length = 0 := by
    intro h0
    rw [h0] at hi
    rw [descRange_eq] at hi
    simp at hi
  have hfc := snLoop_first_change C (_generate_geohash_centroid gdf) eps i
    (descRange gdf.length 1 (roundStep gdf.length)) 1 gdf hi hchg hpre
  rw [Option.map_eq_some'] at hfc
  obtain ⟨p, hp1, hp2⟩ := hfc
  rcases p with ⟨n, g⟩
  have hpair : snLoop C (_generate_geohash_centroid gdf) eps
      (descRange gdf.length 1 (roundStep gdf.length)) 1 gdf =
      (some (n, g), (snLoop C (_generate_geohash_centroid gdf) eps
        (descRange gdf.length 1 (roundStep gdf.length)) 1 gdf).2) := by
    rw [← hp1]
  rw [dsn_eq_of_snLoop C gdf eps n g _ hz hpair]
  simp only [Option.map_some', Option.some.injEq]
  simp only at hp2
  rw [hp2]

theorem determine_start_neighbours_first_change_witness :
    ((_determine_start_neighbours chgC (cellsN 101) 1).1).map Prod.fst =
      some ((descRange (cellsN 101).length 1
        (roundStep (cellsN 101).length)).getD 2 0 +
        roundStep (cellsN 101).length) :=
  determine_start_neighbours_first_change chgC (cellsN 101) 1 2
    (by decide) (by decide) (by decide)

/-- C10: corrected frame property of `_determine_start_neighbours`: a
successful run preserves the rows (geohash and classification columns are
untouched), but it is not read-only — the DBSCAN calls assign the
`cluster` column of the input frame in place, so the input ends up
carrying the labels of the last call (every row has a cluster value). -/
theorem determine_start_neighbours_mutation (C : Clusterer) (gdf : List Cell)
    (eps : ℚ) (hC : CAligned C) (r : Nat) (g' : List Cell)
    (h : (_determine_start_neighbours C gdf eps).1 = some (r, g')) :
    g'.map Cell.geohash = gdf.map Cell.geohash ∧
    g'.map Cell.spot = gdf.map Cell.spot ∧
    ∀ c ∈ g', c.cluster.isSome := by
  obtain ⟨hz, n, cs, hsn, hr⟩ := dsn_fst_some C gdf eps r g' h
  have hlen : gdf.length = (_generate_geohash_centroid gdf).length := by
    simp [_generate_geohash_centroid]
  exact snLoop_mutation C (_generate_geohash_centroid gdf) eps
    (fun m => hC (_generate_geohash_centroid gdf) eps m) _ 1 gdf hlen n g'
    (by rw [hsn])

theorem twoLabels_length (ce : List Nat) : (twoLabels ce).length = ce.length := by
  cases ce with
  | nil => rfl
  | cons a rest => simp [twoLabels]

theorem breakZeroC_aligned : CAligned breakZeroC := by
  intro cents e n
  simp only [breakZeroC]
  split
  · exact twoLabels_length cents
  · simp

theorem determine_start_neighbours_mutation_witness :
    (((_determine_start_neighbours breakZeroC (cellsN 101) 1).1.getD
      (0, [])).2).map Cell.geohash = (cellsN 101).map Cell.geohash ∧
    (((_determine_start_neighbours breakZeroC (cellsN 101) 1).1.getD
      (0, [])).2).map Cell.spot = (cellsN 101).map Cell.spot ∧
    ∀ c ∈ ((_determine_start_neighbours breakZeroC (cellsN 101) 1).1.getD
      (0, [])).2, c.cluster.isSome :=
  determine_start_neighbours_mutation breakZeroC (cellsN 101) 1
    breakZeroC_aligned 102
    ((_determine_start_neighbours breakZeroC (cellsN 101) 1).1.getD (0, [])).2
    (by decide)

/-- C10 counterexample: `_determine_start_neighbours` is not read-only: on
a 101-cell input (whose rows all start with no cluster column) the run
returns the input frame mutated so that every row carries the cluster
label of the final DBSCAN call, rather than leaving the input unchanged. -/
theorem determine_start_neighbours_readonly_cex :
    ((_determine_start_neighbours breakZeroC (cellsN 101) 1).1).map Prod.snd ≠
      some (cellsN 101) ∧
    ((_determine_start_neighbours breakZeroC (cellsN 101) 1).1).map
      (fun p => p.2.map Cell.cluster) =
      some (some (0 : Int) :: List.replicate 100 (some (-1 : Int))) ∧
    (cellsN 101).map Cell.cluster = List.replicate 101 none := by
  refine ⟨by decide, by decide, by decide⟩

theorem first_match_split (p : Nat → Bool) : ∀ (l : List Nat),
    (∃ m ∈ l, p m) →
    ∃ l₁ n₀ l₂, l = l₁ ++ n₀ :: l₂ ∧ (∀ m ∈ l₁, ¬ p m) ∧ p n₀ := by
  intro l
  induction l with
  | nil => intro h; simp at h
  | cons a rest ih =>
    intro h
    by_cases ha : p a
    · exact ⟨[], a, rest, rfl, by simp, ha⟩
    · have : ∃ m ∈ rest, p m := by
        obtain ⟨m, hm, hp⟩ := h
        rcases List.mem_cons.mp hm with rfl | hm'
        · exact absurd hp ha
        · exact ⟨m, hm', hp⟩
      obtain ⟨l₁, n₀, l₂, heq, h1, h2⟩ := ih this
      exact ⟨a :: l₁, n₀, l₂, by rw [heq]; rfl,
        fun m hm => by
          rcases List.mem_cons.mp hm with rfl | hm'
          · exact ha
          · exact h1 m hm', h2⟩

theorem innerScan_scanned (C : Clusterer) (cents : List Nat) (eps : ℚ)
    (s : Nat) : ∀ (l : List Nat) (st : DAState),
    (innerScan C cents eps s l st).2 =
      (takeThrough (fun n => cntOf C cents eps n = 2) l).map
        (fun n => (n, cntOf C cents eps n)) := by
  intro l
  induction l with
  | nil => intro st; rfl
  | cons n rest ih =>
    intro st
    simp only [innerScan, _dbscan_clustering, takeThrough]
    by_cases hc : (C cents eps n).dedup.length = 2
    · rw [if_pos hc, if_pos (by simpa [cntOf] using hc)]
      simp [cntOf]
    · rw [if_neg hc, if_neg (by simpa [cntOf] using hc)]
      simp only [List.map_cons]
      rw [ih]
      rfl

theorem innerScan_no_match (C : Clusterer) (cents : List Nat) (eps : ℚ)
    (s : Nat) : ∀ (l : List Nat) (st : DAState),
    (∀ n ∈ l, ¬ cntOf C cents eps n = 2) →
    ((innerScan C cents eps s l st).1.start = st.start ∧
     (innerScan C cents eps s l st).1.stop = st.stop ∧
     (innerScan C cents eps s l st).1.passes = st.passes ∧
     (l = [] → (innerScan C cents eps s l st).1 = st) ∧
     (l ≠ [] → (innerScan C cents eps s l st).1.lastScan =
       some (l.getLastD 0, cntOf C cents eps (l.getLastD 0)))) := by
  intro l
  induction l with
  | nil => intro st _; exact ⟨rfl, rfl, rfl, fun _ => rfl, fun h => absurd rfl h⟩
  | cons n rest ih =>
    intro st hnm
    have hn : ¬ (C cents eps n).dedup.length = 2 := by
      have := hnm n (List.mem_cons_self n rest)
      simpa [cntOf] using this
    simp only [innerScan, _dbscan_clustering]
    rw [if_neg hn]
    obtain ⟨i1, i2, i3, i4, i5⟩ :=
      ih _ (fun m hm => hnm m (List.mem_cons_of_mem n hm))
    cases rest with
    | nil =>
      refine ⟨by rw [i1], by rw [i2], by rw [i3], by simp, fun _ => ?_⟩
      rw [i4 rfl]
      simp [cntOf]
    | cons m rest' =>
      refine ⟨by rw [i1], by rw [i2], by rw [i3], by simp, fun _ => ?_⟩
      rw [i5 (by simp)]
      simp

theorem innerScan_match (C : Clusterer) (cents : List Nat) (eps : ℚ)
    (s : Nat) : ∀ (l₁ : List Nat) (n₀ : Nat) (l₂ : List Nat) (st : DAState),
    (∀ m ∈ l₁, ¬ cntOf C cents eps m = 2) → cntOf C cents eps n₀ = 2 →
    ((innerScan C cents eps s (l₁ ++ n₀ :: l₂) st).1.start = n₀ + s ∧
     (innerScan C cents eps s (l₁ ++ n₀ :: l₂) st).1.stop = n₀ ∧
     (innerScan C cents eps s (l₁ ++ n₀ :: l₂) st).1.lastScan = some (n₀, 2) ∧
     (innerScan C cents eps s (l₁ ++ n₀ :: l₂) st).1.passes = st.passes) := by
  intro l₁
  induction l₁ with
  | nil =>
    intro n₀ l₂ st _ hp
    have hn : (C cents eps n₀).dedup.length = 2 := by simpa [cntOf] using hp
    simp only [List.nil_append, innerScan, _dbscan_clustering]
    rw [if_pos hn]
    exact ⟨rfl, rfl, by rw [hn], rfl⟩
  | cons a rest ih =>
    intro n₀ l₂ st h1 hp
    have ha : ¬ (C cents eps a).dedup.length = 2 := by
      have := h1 a (List.mem_cons_self a rest)
      simpa [cntOf] using this
    simp only [List.cons_append, innerScan, _dbscan_clustering]
    rw [if_neg ha]
    exact ih n₀ l₂ _ (fun m hm => h1 m (List.mem_cons_of_mem a hm)) hp

theorem innerScan_calls (C : Clusterer) (cents : List Nat) (eps : ℚ)
    (s : Nat) : ∀ (l : List Nat) (st : DAState),
    ∃ new, (innerScan C cents eps s l st).1.calls = st.calls ++ new ∧
      ∀ c ∈ new, c.2 ∈ l := by
  intro l
  induction l with
  | nil => intro st; exact ⟨[], by simp [innerScan], by simp⟩
  | cons n rest ih =>
    intro st
    simp only [innerScan, _dbscan_clustering]
    by_cases hc : (C cents eps n).dedup.length = 2
    · rw [if_pos hc]
      exact ⟨[(st.gdf.length, n)], by simp, by simp⟩
    · rw [if_neg hc]
      obtain ⟨new, h1, h2⟩ := ih ({ st with
        gdf := applyLabels st.gdf (C cents eps n),
        lastScan := some (n, (C cents eps n).dedup.length),
        calls := st.calls ++ [(st.gdf.length, n)] })
      refine ⟨(st.gdf.length, n) :: new, ?_, ?_⟩
      · rw [h1]
        simp
      · intro c hc2
        rcases List.mem_cons.mp hc2 with rfl | hc3
        · simp
        · exact List.mem_cons_of_mem n (h2 c hc3)

theorem innerScan_gdf_len (C : Clusterer) (cents : List Nat) (eps : ℚ)
    (s : Nat) : ∀ (l : List Nat) (st : DAState),
    (innerScan C cents eps s l st).1.gdf.length ≤ st.gdf.length := by
  intro l
  induction l with
  | nil => intro st; exact le_refl _
  | cons n rest ih =>
    intro st
    simp only [innerScan, _dbscan_clustering]
    by_cases hc : (C cents eps n).dedup.length = 2
    · rw [if_pos hc]
      exact applyLabels_length_le _ _
    · rw [if_neg hc]
      exact le_trans (ih _) (applyLabels_length_le _ _)

theorem innerScan_gdf_geo (C : Clusterer) (cents : List Nat) (eps : ℚ)
    (s : Nat) (hC : ∀ n, (C cents eps n).length = cents.length) :
    ∀ (l : List Nat) (st : DAState), st.gdf.length = cents.length →
    ((innerScan C cents eps s l st).1.gdf.map Cell.geohash =
       st.gdf.map Cell.geohash ∧
     (innerScan C cents eps s l st).1.gdf.map Cell.spot =
       st.gdf.map Cell.spot ∧
     (innerScan C cents eps s l st).1.gdf.length = cents.length) := by
  intro l
  induction l with
  | nil => intro st h; exact ⟨rfl, rfl, h⟩
  | cons n rest ih =>
    intro st hlen
    have hle : st.gdf.length ≤ (C cents eps n).length := by rw [hC n, hlen]
    have hlen' : (applyLabels st.gdf (C cents eps n)).length = cents.length := by
      rw [applyLabels_length _ _ hle, hlen]
    simp only [innerScan, _dbscan_clustering]
    by_cases hc : (C cents eps n).dedup.length = 2
    · rw [if_pos hc]
      exact ⟨applyLabels_map_geohash _ _ hle, applyLabels_map_spot _ _ hle, hlen'⟩
    · rw [if_neg hc]
      obtain ⟨g1, g2, g3⟩ := ih ({ st with
        gdf := applyLabels st.gdf (C cents eps n),
        lastScan := some (n, (C cents eps n).dedup.length),
        calls := st.calls ++ [(st.gdf.length, n)] }) hlen'
      exact ⟨g1.trans (applyLabels_map_geohash _ _ hle),
        g2.trans (applyLabels_map_spot _ _ hle), g3⟩

theorem innerScan_passes (C : Clusterer) (cents : List Nat) (eps : ℚ)
    (s : Nat) : ∀ (l : List Nat) (st : DAState),
    (innerScan C cents eps s l st).1.passes = st.passes := by
  intro l
  induction l with
  | nil => intro st; rfl
  | cons n rest ih =>
    intro st
    simp only [innerScan, _dbscan_clustering]
    by_cases hc : (C cents eps n).dedup.length = 2
    · rw [if_pos hc]
    · rw [if_neg hc]
      exact ih _

theorem getLastD_map_pair (cnt : Nat → Nat) : ∀ (l : List Nat) (d : Nat)
    (dp : Nat × Nat), l ≠ [] →
    (l.map (fun n => (n, cnt n))).getLastD dp =
      (l.getLastD d, cnt (l.getLastD d)) := by
  intro l
  induction l with
  | nil => intro d dp h; exact absurd rfl h
  | cons a rest ih =>
    intro d dp _
    cases rest with
    | nil => rfl
    | cons b t =>
      rw [List.map_cons, List.getLastD_cons, List.getLastD_cons]
      exact ih a (a, cnt a) (by simp)

/-- Soundness statement for one recorded refiner pass: the scanned values
follow the schedule from `startB` down to `stopB` (not down to 1) stopping
at the first 2-label hit; recorded counts are the distinct-label counts; a
2-label hit fixes `stopA` and `startA`; and a completed pass without a hit
keeps `stopA` and resets `startA` to the last scanned value exactly when
that last count was 1. -/
def PassSound (cnt : Nat → Nat) (log : PassLog) : Prop :=
  log.scanned.map Prod.fst = scanOfPass cnt log.startB log.stopB log.steps ∧
  (∀ q ∈ log.scanned, q.2 = cnt q.1) ∧
  (∀ q ∈ log.scanned, q.2 = 2 →
    log.stopA = q.1 ∧ log.startA = q.1 + log.steps) ∧
  (log.scanned ≠ [] → (∀ q ∈ log.scanned, ¬ q.2 = 2) →
    log.stopA = log.stopB ∧
    log.startA = (if (log.scanned.getLastD (0, 0)).2 = 1
      then (log.scanned.getLastD (0, 0)).1 else log.startB))

theorem outerLoop_sound (C : Clusterer) (cents : List Nat) (eps : ℚ) :
    ∀ (pl : List Nat) (st st' : DAState),
    (∀ log ∈ st.passes, PassSound (cntOf C cents eps) log) →
    outerLoop C cents eps pl st = some st' →
    ∀ log ∈ st'.passes, PassSound (cntOf C cents eps) log := by
  intro pl
  induction pl with
  | nil =>
    intro st st' hp h
    simp only [outerLoop, Option.some.injEq] at h
    rw [← h]
    exact hp
  | cons s rest ih =>
    intro st st' hp h
    rcases hls : (innerScan C cents eps s
        (descRange st.start (st.stop - 1) s) st).1.lastScan with _ | ⟨n, cur⟩
    · simp only [outerLoop, hls] at h
      exact absurd h (by simp)
    · simp only [outerLoop, hls] at h
      have hscan := innerScan_scanned C cents eps s
        (descRange st.start (st.stop - 1) s) st
      have hpass := innerScan_passes C cents eps s
        (descRange st.start (st.stop - 1) s) st
      refine ih _ st' ?_ h
      intro log hlog
      dsimp only at hlog
      rw [hpass] at hlog
      rcases List.mem_append.mp hlog with hold | hnew
      · exact hp log hold
      rw [List.mem_singleton] at hnew
      subst hnew
      simp only [PassSound]
      by_cases hex : ∃ m ∈ descRange st.start (st.stop - 1) s,
          cntOf C cents eps m = 2
      · -- a 2-label hit exists in the schedule: first-match analysis
        obtain ⟨l₁, n₀, l₂, heq, hl1, hl2⟩ :=
          first_match_split (fun m => cntOf C cents eps m = 2)
            (descRange st.start (st.stop - 1) s)
            (by obtain ⟨m, hm, hm2⟩ := hex; exact ⟨m, hm, by simp [hm2]⟩)
        have hl1' : ∀ m ∈ l₁, ¬ cntOf C cents eps m = 2 := by
          intro m hm
          have := hl1 m hm
          simpa using this
        have hl2' : cntOf C cents eps n₀ = 2 := by simpa using hl2
        have him := innerScan_match C cents eps s l₁ n₀ l₂ st hl1' hl2'
        rw [← heq] at him
        obtain ⟨m1, m2, m3, m4⟩ := him
        rw [m3, Option.some.injEq, Prod.mk.injEq] at hls
        have hn : n = n₀ := hls.1.symm
        have hcur : cur = 2 := hls.2.symm
        have hscanned : (innerScan C cents eps s (l₁ ++ n₀ :: l₂) st).2 =
            (l₁ ++ [n₀]).map (fun m => (m, cntOf C cents eps m)) := by
          rw [← heq, hscan, heq, takeThrough_of_match _ l₁ n₀ l₂
            (fun m hm => by simpa using hl1' m hm) (by simpa using hl2')]
        refine ⟨?_, ?_, ?_, ?_⟩
        · simp only [heq, hscanned, scanOfPass]
          rw [takeThrough_of_match _ l₁ n₀ l₂
            (fun m hm => by simpa using hl1' m hm) (by simpa using hl2')]
          rw [List.map_map]
          have hid : (Prod.fst ∘ fun m : Nat =>
            (m, cntOf C cents eps m)) = id := rfl
          rw [hid, List.map_id]
        · intro q hq
          simp only [heq, hscanned, List.mem_map] at hq
          obtain ⟨m, _, rfl⟩ := hq
          rfl
        · intro q hq hq2
          simp only [heq, hscanned, List.mem_map] at hq
          obtain ⟨m, hm, rfl⟩ := hq
          rcases List.mem_append.mp hm with hm1 | hm2
          · exact absurd hq2 (hl1' m hm1)
          · rw [List.mem_singleton] at hm2
            subst hm2
            constructor
            · exact m2
            · rw [hcur, if_neg (by omega : ¬ (2 : Nat) = 1), m1]
        · intro _ hnm
          exfalso
          refine hnm (n₀, cntOf C cents eps n₀) ?_ hl2'
          simp [heq, hscanned]
      · -- no 2-label hit anywhere in the schedule
        push_neg at hex
        obtain ⟨i1, i2, i3, i4, i5⟩ := innerScan_no_match C cents eps s
          (descRange st.start (st.stop - 1) s) st hex
        have hscanned : (innerScan C cents eps s
            (descRange st.start (st.stop - 1) s) st).2 =
            (descRange st.start (st.stop - 1) s).map
              (fun m => (m, cntOf C cents eps m)) := by
          rw [hscan, takeThrough_of_no_match _ _
            (fun m hm => by simpa using hex m hm)]
        by_cases hsl : descRange st.start (st.stop - 1) s = []
        · have hsc2 : (innerScan C cents eps s
              (descRange st.start (st.stop - 1) s) st).2 = [] := by
            rw [hscanned, hsl]
            rfl
          refine ⟨?_, ?_, ?_, ?_⟩
          · simp only [hsc2, scanOfPass, hsl]
            rfl
          · intro q hq
            rw [hsc2] at hq
            simp at hq
          · intro q hq
            rw [hsc2] at hq
            simp at hq
          · intro hne _
            rw [hsc2] at hne
            exact absurd rfl hne
        · have hlast := i5 hsl
          rw [hls, Option.some.injEq, Prod.mk.injEq] at hlast
          have hn : n = (descRange st.start (st.stop - 1) s).getLastD 0 :=
            hlast.1
          have hcur : cur = cntOf C cents eps
              ((descRange st.start (st.stop - 1) s).getLastD 0) := hlast.2
          refine ⟨?_, ?_, ?_, ?_⟩
          · simp only [hscanned, scanOfPass]
            rw [takeThrough_of_no_match _ _
              (fun m hm => by simpa using hex m hm)]
            rw [List.map_map]
            have hid : (Prod.fst ∘ fun m : Nat =>
              (m, cntOf C cents eps m)) = id := rfl
            rw [hid, List.map_id]
          · intro q hq
            simp only [hscanned, List.mem_map] at hq
            obtain ⟨m, _, rfl⟩ := hq
            rfl
          · intro q hq hq2
            simp only [hscanned, List.mem_map] at hq
            obtain ⟨m, hm, rfl⟩ := hq
            exact absurd hq2 (hex m hm)
          · intro _ _
            refine ⟨i2, ?_⟩
            simp only [hscanned]
            rw [getLastD_map_pair (cntOf C cents eps) _ 0 (0, 0) hsl]
            rw [hn, hcur, i1]

theorem dda_passes_sound (C : Clusterer) (gdf : List Cell) (sn : Nat)
    (eps : ℚ) (st' : DAState)
    (h : _determine_desired_area_run C gdf sn eps = some st') :
    ∀ log ∈ st'.passes,
      PassSound (cntOf C (_generate_geohash_centroid gdf) eps) log :=
  outerLoop_sound C (_generate_geohash_centroid gdf) eps [5, 4, 3, 2, 1]
    ⟨sn, 1, none, gdf, [], []⟩ st' (fun _ hl => absurd hl (by simp)) h

/-- C5: corrected scan schedule of every refiner pass: the inner loop
scans from the current `start_neighbours` down to the current
`stop_n_neighbour` (not down to 1 — the lower bound is the dynamic
`stop_n_neighbour - 1` range bound) in decrements of the pass step, and at
the first scanned value producing exactly 2 distinct labels it records it
as `stop_n_neighbour`, advances `start_neighbours` to that value plus the
step, and breaks the pass immediately. -/
theorem refiner_pass_scan_spec (C : Clusterer) (gdf : List Cell) (sn : Nat)
    (eps : ℚ) (st' : DAState) (log : PassLog)
    (h : _determine_desired_area_run C gdf sn eps = some st')
    (hl : log ∈ st'.passes) :
    log.scanned.map Prod.fst =
      scanOfPass (cntOf C (_generate_geohash_centroid gdf) eps)
        log.startB log.stopB log.steps ∧
    ∀ q ∈ log.scanned, q.2 = 2 →
      log.stopA = q.1 ∧ log.startA = q.1 + log.steps := by
  obtain ⟨s1, _, s3, _⟩ := dda_passes_sound C gdf sn eps st' h log hl
  exact ⟨s1, s3⟩

theorem refiner_pass_scan_spec_witness :
    ((((_determine_desired_area_run o5C (cellsN 3) 10 1).getD
        default).passes.getD 0 default).scanned.map Prod.fst =
      scanOfPass (cntOf o5C (_generate_geohash_centroid (cellsN 3)) 1)
        (((_determine_desired_area_run o5C (cellsN 3) 10 1).getD
          default).passes.getD 0 default).startB
        (((_determine_desired_area_run o5C (cellsN 3) 10 1).getD
          default).passes.getD 0 default).stopB
        (((_determine_desired_area_run o5C (cellsN 3) 10 1).getD
          default).passes.getD 0 default).steps) ∧
    ∀ q ∈ (((_determine_desired_area_run o5C (cellsN 3) 10 1).getD
        default).passes.getD 0 default).scanned, q.2 = 2 →
      (((_determine_desired_area_run o5C (cellsN 3) 10 1).getD
        default).passes.getD 0 default).stopA = q.1 ∧
      (((_determine_desired_area_run o5C (cellsN 3) 10 1).getD
        default).passes.getD 0 default).startA = q.1 +
        (((_determine_desired_area_run o5C (cellsN 3) 10 1).getD
          default).passes.getD 0 default).steps :=
  refiner_pass_scan_spec o5C (cellsN 3) 10 1
    ((_determine_desired_area_run o5C (cellsN 3) 10 1).getD default)
    (((_determine_desired_area_run o5C (cellsN 3) 10 1).getD
      default).passes.getD 0 default) (by decide) (by decide)

/-- C5 counterexample: in the run with backend `o5C` from
`start_neighbours = 10`, the first pass hits 2 labels at 5, so
`stop_n_neighbour` becomes 5; the second pass (step 4) then scans only
`[10, 6]` — it does not scan down to 1, which per the claim would visit
`[10, 6, 2]`. -/
theorem refiner_scan_not_to_one_cex :
    (((_determine_desired_area_run o5C (cellsN 3) 10 1).getD
        default).passes.getD 1 default).scanned.map Prod.fst ≠
      scanOfPass (cntOf o5C (_generate_geohash_centroid (cellsN 3)) 1)
        (((_determine_desired_area_run o5C (cellsN 3) 10 1).getD
          default).passes.getD 1 default).startB 1
        (((_determine_desired_area_run o5C (cellsN 3) 10 1).getD
          default).passes.getD 1 default).steps ∧
    (((_determine_desired_area_run o5C (cellsN 3) 10 1).getD
        default).passes.getD 1 default).scanned.map Prod.fst = [10, 6] ∧
    scanOfPass (cntOf o5C (_generate_geohash_centroid (cellsN 3)) 1)
      10 1 4 = [10, 6, 2] := by
  refine ⟨by decide, by decide, by decide⟩

/-- C6: corrected reset rule: when a pass completes with no scanned value
producing exactly 2 distinct labels, `start_neighbours` is reset to the
last scanned value only when that last value produced exactly 1 distinct
label (the code tests `current_len_labels == 1`, not "no match found");
otherwise `start_neighbours` is left unchanged.  `stop_n_neighbour` is
unchanged either way. -/
theorem refiner_reset_spec (C : Clusterer) (gdf : List Cell) (sn : Nat)
    (eps : ℚ) (st' : DAState) (log : PassLog)
    (h : _determine_desired_area_run C gdf sn eps = some st')
    (hl : log ∈ st'.passes)
    (hne : log.scanned ≠ [])
    (hnm : ∀ q ∈ log.scanned, ¬ q.2 = 2) :
    log.stopA = log.stopB ∧
    log.startA = (if (log.scanned.getLastD (0, 0)).2 = 1
      then (log.scanned.getLastD (0, 0)).1 else log.startB) := by
  obtain ⟨_, _, _, s4⟩ := dda_passes_sound C gdf sn eps st' h log hl
  exact s4 hne hnm

theorem refiner_reset_spec_witness :
    (((_determine_desired_area_run constZeroC (cellsN 3) 9 1).getD
        default).passes.getD 0 default).stopA =
      (((_determine_desired_area_run constZeroC (cellsN 3) 9 1).getD
        default).passes.getD 0 default).stopB ∧
    (((_determine_desired_area_run constZeroC (cellsN 3) 9 1).getD
        default).passes.getD 0 default).startA =
      (if ((((_determine_desired_area_run constZeroC (cellsN 3) 9 1).getD
          default).passes.getD 0 default).scanned.getLastD (0, 0)).2 = 1
        then ((((_determine_desired_area_run constZeroC (cellsN 3) 9 1).getD
          default).passes.getD 0 default).scanned.getLastD (0, 0)).1
        else (((_determine_desired_area_run constZeroC (cellsN 3) 9 1).getD
          default).passes.getD 0 default).startB) :=
  refiner_reset_spec constZeroC (cellsN 3) 9 1
    ((_determine_desired_area_run constZeroC (cellsN 3) 9 1).getD default)
    (((_determine_desired_area_run constZeroC (cellsN 3) 9 1).getD
      default).passes.getD 0 default) (by decide) (by decide)
    (by decide) (by decide)

/-- C6 counterexample: with backend `threeC` (3 distinct labels always,
never 2) from `start_neighbours = 9`, the first pass scans `[9, 4]` and
completes without any 2-label hit, yet `start_neighbours` stays 9: it is
not reset to the last scanned value 4, because the last count was 3, not
1. -/
theorem refiner_no_reset_cex :
    (∀ q ∈ (((_determine_desired_area_run threeC (cellsN 3) 9 1).getD
        default).passes.getD 0 default).scanned, ¬ q.2 = 2) ∧
    (((_determine_desired_area_run threeC (cellsN 3) 9 1).getD
        default).passes.getD 0 default).scanned.map Prod.fst = [9, 4] ∧
    (((_determine_desired_area_run threeC (cellsN 3) 9 1).getD
        default).passes.getD 0 default).startA = 9 ∧
    (((_determine_desired_area_run threeC (cellsN 3) 9 1).getD
        default).passes.getD 0 default).startA ≠ 4 := by
  refine ⟨by decide, by decide, by decide, by decide⟩

theorem innerScan_stop_mem (C : Clusterer) (cents : List Nat) (eps : ℚ)
    (s : Nat) : ∀ (l : List Nat) (st : DAState),
    (innerScan C cents eps s l st).1.stop = st.stop ∨
    (innerScan C cents eps s l st).1.stop ∈ l := by
  intro l
  induction l with
  | nil => intro st; exact Or.inl rfl
  | cons n rest ih =>
    intro st
    simp only [innerScan, _dbscan_clustering]
    by_cases hc : (C cents eps n).dedup.length = 2
    · rw [if_pos hc]
      exact Or.inr (List.mem_cons_self n rest)
    · rw [if_neg hc]
      dsimp only
      rcases ih ({ st with
          gdf := applyLabels st.gdf (C cents eps n),
          lastScan := some (n, (C cents eps n).dedup.length),
          calls := st.calls ++ [(st.gdf.length, n)] }) with h1 | h2
      · exact Or.inl h1
      · exact Or.inr (List.mem_cons_of_mem n h2)

theorem outerLoop_calls_pos (C : Clusterer) (cents : List Nat) (eps : ℚ) :
    ∀ (pl : List Nat) (st st' : DAState), 1 ≤ st.stop →
    (∀ c ∈ st.calls, 1 ≤ c.2) →
    outerLoop C cents eps pl st = some st' →
    ∀ c ∈ st'.calls, 1 ≤ c.2 := by
  intro pl
  induction pl with
  | nil =>
    intro st st' _ hc h
    simp only [outerLoop, Option.some.injEq] at h
    rw [← h]
    exact hc
  | cons s rest ih =>
    intro st st' hstop hc h
    rcases hls : (innerScan C cents eps s
        (descRange st.start (st.stop - 1) s) st).1.lastScan with _ | ⟨n, cur⟩
    · simp only [outerLoop, hls] at h
      exact absurd h (by simp)
    · simp only [outerLoop, hls] at h
      obtain ⟨new, hn1, hn2⟩ := innerScan_calls C cents eps s
        (descRange st.start (st.stop - 1) s) st
      refine ih _ st' ?_ ?_ h
      · rcases innerScan_stop_mem C cents eps s
            (descRange st.start (st.stop - 1) s) st with h1 | h2
        · rw [h1]
          exact hstop
        · have hm := descRange_mem (st.stop - 1) s st.start _ h2
          exact le_trans hstop (Nat.le_of_pred_lt hm.1)
      · intro c hcmem
        dsimp only at hcmem
        rw [hn1] at hcmem
        rcases List.mem_append.mp hcmem with hold | hnew
        · exact hc c hold
        · have := descRange_mem (st.stop - 1) s st.start _ (hn2 c hnew)
          omega

theorem outerLoop_gdf_len (C : Clusterer) (cents : List Nat) (eps : ℚ) :
    ∀ (pl : List Nat) (st st' : DAState),
    outerLoop C cents eps pl st = some st' →
    st'.gdf.length ≤ st.gdf.length := by
  intro pl
  induction pl with
  | nil =>
    intro st st' h
    simp only [outerLoop, Option.some.injEq] at h
    rw [← h]
  | cons s rest ih =>
    intro st st' h
    rcases hls : (innerScan C cents eps s
        (descRange st.start (st.stop - 1) s) st).1.lastScan with _ | ⟨n, cur⟩
    · simp only [outerLoop, hls] at h
      exact absurd h (by simp)
    · simp only [outerLoop, hls] at h
      exact le_trans (ih _ st' h) (innerScan_gdf_len C cents eps s _ st)

theorem dsn_calls_pos (C : Clusterer) (gdf : List Cell) (eps : ℚ) :
    ∀ c ∈ (_determine_start_neighbours C gdf eps).2, 2 ≤ c.2 := by
  intro c hc
  simp only [_determine_start_neighbours] at hc
  by_cases hz : roundStep gdf.length = 0
  · rw [if_pos hz] at hc
    simp at hc
  · rw [if_neg hz] at hc
    have hmem : ∀ d ∈ (snLoop C (_generate_geohash_centroid gdf) eps
        (descRange gdf.length 1 (roundStep gdf.length)) 1 gdf).2,
        d.2 ∈ descRange gdf.length 1 (roundStep gdf.length) :=
      snLoop_calls_mem C (_generate_geohash_centroid gdf) eps _ 1 gdf
    rcases hsn : snLoop C (_generate_geohash_centroid gdf) eps
        (descRange gdf.length 1 (roundStep gdf.length)) 1 gdf with ⟨o, cs⟩
    rw [hsn] at hc hmem
    cases o with
    | none =>
      dsimp only at hc
      have := descRange_mem 1 (roundStep gdf.length) gdf.length _ (hmem c hc)
      omega
    | some p =>
      rcases p with ⟨n, g⟩
      dsimp only at hc
      have := descRange_mem 1 (roundStep gdf.length) gdf.length _ (hmem c hc)
      omega

theorem dsn_len (C : Clusterer) (gdf : List Cell) (eps : ℚ) (r : Nat)
    (g' : List Cell) (h : (_determine_start_neighbours C gdf eps).1 = some (r, g')) :
    g'.length ≤ gdf.length := by
  obtain ⟨_, n, cs, hsn, _⟩ := dsn_fst_some C gdf eps r g' h
  exact snLoop_len C (_generate_geohash_centroid gdf) eps _ 1 gdf n g'
    (by rw [hsn])

theorem dda_calls_pos (C : Clusterer) (gdf : List Cell) (sn : Nat) (eps : ℚ) :
    ∀ c ∈ (_determine_desired_area C gdf sn eps).2, 1 ≤ c.2 := by
  intro c hc
  simp only [_determine_desired_area] at hc
  rcases hrun : _determine_desired_area_run C gdf sn eps with _ | st
  · rw [hrun] at hc
    simp at hc
  · rw [hrun] at hc
    dsimp only at hc
    exact outerLoop_calls_pos C (_generate_geohash_centroid gdf) eps
      [5, 4, 3, 2, 1] ⟨sn, 1, none, gdf, [], []⟩ st (Nat.le_refl 1)
      (by intro d hd; simp at hd) hrun c hc

theorem dda_len (C : Clusterer) (gdf : List Cell) (sn : Nat) (eps : ℚ)
    (gD : List Cell) (h : (_determine_desired_area C gdf sn eps).1 = some gD) :
    gD.length ≤ gdf.length := by
  simp only [_determine_desired_area] at h
  rcases hrun : _determine_desired_area_run C gdf sn eps with _ | st
  · rw [hrun] at h
    simp at h
  · rw [hrun] at h
    dsimp only at h
    rw [Option.some.injEq] at h
    rw [← h]
    exact outerLoop_gdf_len C (_generate_geohash_centroid gdf) eps
      [5, 4, 3, 2, 1] ⟨sn, 1, none, gdf, [], []⟩ st hrun

/-- C9: corrected invariant on the clustering invocations of a peel step:
the min-samples parameter is always a positive integer (NeighborSearch
scans values above 1, and the refiner scans values above
`stop_n_neighbour - 1` with `stop_n_neighbour` at least 1).  The claimed
upper bound by the current set size does not hold: NeighborSearch may
return `|CellSet| + step`, which the refiner then passes to DBSCAN (see
the counterexample). -/
theorem peel_calls_positive (C : Clusterer) (eps : ℚ) (h : List Cell) :
    ∀ c ∈ (peelStep C eps h).2, 1 ≤ c.2 := by
  intro c hc
  simp only [peelStep] at hc
  rcases hd : _determine_start_neighbours C h eps with ⟨o, cs⟩
  have hdpos : ∀ d ∈ cs, 2 ≤ d.2 := by
    intro d hdm
    exact dsn_calls_pos C h eps d (by rw [hd]; exact hdm)
  rw [hd] at hc
  cases o with
  | none =>
    dsimp only at hc
    have := hdpos c hc
    omega
  | some p =>
    rcases p with ⟨sn, g1⟩
    dsimp only at hc
    rcases hd2 : _determine_desired_area C g1 sn eps with ⟨o2, cs2⟩
    have hd2pos : ∀ d ∈ cs2, 1 ≤ d.2 := by
      intro d hdm
      exact dda_calls_pos C g1 sn eps d (by rw [hd2]; exact hdm)
    rw [hd2] at hc
    cases o2 with
    | none =>
      dsimp only at hc
      rcases List.mem_append.mp hc with h1 | h2
      · have := hdpos c h1
        omega
      · exact hd2pos c h2
    | some gD =>
      dsimp only at hc
      rcases List.mem_append.mp hc with h1 | h2
      · have := hdpos c h1
        omega
      · exact hd2pos c h2

theorem peel_calls_positive_witness :
    (101, 101) ∈ (peelStep twoLabelC 1 (cellsN 101)).2 ∧
    1 ≤ ((101, 101) : Call).2 :=
  ⟨by decide, peel_calls_positive twoLabelC 1 (cellsN 101) (101, 101) (by decide)⟩

/-- C9 counterexample: with a backend that always yields 2 distinct
labels, NeighborSearch on 101 cells breaks at its very first call and
returns `start_neighbours = 102`; the refiner then invokes DBSCAN with
min-samples 102 on the 101-cell set, violating the claimed upper bound by
the size of the CellSet under consideration. -/
theorem peel_call_exceeds_size_cex :
    (101, 102) ∈ (peelStep twoLabelC 1 (cellsN 101)).2 ∧
    (cellsN 101).length = 101 ∧ 101 < 102 := by
  refine ⟨by decide, by decide, by decide⟩

/-- C2: the monotonicity half of the claim: across every successful peel
iteration the remainder never grows (the new remainder is the noise-label
subset of the refined frame, whose row count never exceeds the previous
remainder).  The termination half of the claim fails: see the
counterexample. -/
theorem peel_remainder_le (C : Clusterer) (eps : ℚ) (h : List Cell)
    (cl : List Nat) (rem : List Cell)
    (hp : (peelStep C eps h).1 = some (cl, rem)) : rem.length ≤ h.length := by
  simp only [peelStep] at hp
  rcases hd : _determine_start_neighbours C h eps with ⟨o, cs⟩
  rw [hd] at hp
  cases o with
  | none => simp at hp
  | some p =>
    rcases p with ⟨sn, g1⟩
    dsimp only at hp
    rcases hd2 : _determine_desired_area C g1 sn eps with ⟨o2, cs2⟩
    rw [hd2] at hp
    cases o2 with
    | none => simp at hp
    | some gD =>
      dsimp only at hp
      rw [Option.some.injEq, Prod.mk.injEq] at hp
      have hrem : rem = (gD.filter (fun c => c.cluster = some (-1))).map
          (fun c => { c with cluster := none }) := hp.2.symm
      have h1 : rem.length ≤ gD.length := by
        rw [hrem, List.length_map]
        exact List.length_filter_le _ _
      have h2 : gD.length ≤ g1.length :=
        dda_len C g1 sn eps gD (by rw [hd2])
      have h3 : g1.length ≤ h.length :=
        dsn_len C h eps sn g1 (by rw [hd])
      omega

theorem peel_remainder_le_witness :
    (peelStep twoLabelC 1 (cellsN 101)).1 =
      some ([0], (cellsN 101).drop 1) ∧
    ((cellsN 101).drop 1).length ≤ (cellsN 101).length :=
  ⟨by decide,
    peel_remainder_le twoLabelC 1 (cellsN 101) [0] ((cellsN 101).drop 1)
      (by decide)⟩

theorem allIter_stuck (C : Clusterer) (eps : ℚ) (h : List Cell)
    (hne : ¬ h = []) (hfix : (peelStep C eps h).1 = some ([], h)) :
    ∀ fl, (allIter C eps fl h).1 = none := by
  intro fl
  induction fl with
  | zero => simp [allIter, hne]
  | succ fl ih =>
    simp only [allIter, if_neg hne]
    have hp : peelStep C eps h = (some ([], h), (peelStep C eps h).2) := by
      rw [← hfix]
    rw [hp]
    dsimp only
    rcases hai : allIter C eps fl h with ⟨o, cs'⟩
    rw [hai] at ih
    dsimp only at ih
    rw [ih]

theorem find_all_fst_none (fuel : Nat) (C : Clusterer) (gdf : List Cell)
    (eps : ℚ)
    (h : (allIter C eps fuel
      (gdf.filter (fun c => c.spot == "hotspot"))).1 = none) :
    (find_all_desired_areas fuel C gdf eps).1 = none := by
  simp only [find_all_desired_areas]
  rcases hai : allIter C eps fuel (gdf.filter (fun c => c.spot == "hotspot"))
    with ⟨o, cs⟩
  rw [hai] at h
  dsimp only at h
  rw [h]

/-- C2 counterexample: with a backend that reports a label-count change at
the top of the descent and labels every point as noise at every refinement
call (all outputs within the DBSCAN contract, including the
degrade-gracefully all-noise answer the specification itself prescribes),
a 101-cell hotspot set is returned unchanged by every peel iteration, so
after `|hotspotSet| = 101` peel iterations the remainder is still
non-empty and `find_all_desired_areas` has not terminated. -/
theorem find_all_nonterminating_cex :
    (find_all_desired_areas 101 breakNoiseC (cellsN 101) 1).1 = none ∧
    ((cellsN 101).filter (fun c => c.spot == "hotspot")).length = 101 := by
  constructor
  · have hfix : (peelStep breakNoiseC 1 (cellsN 101)).1 =
        some ([], cellsN 101) := by decide
    have hstuck := allIter_stuck breakNoiseC 1 (cellsN 101) (by decide) hfix 101
    refine find_all_fst_none 101 breakNoiseC (cellsN 101) 1 ?_
    have hfilter : (cellsN 101).filter (fun c => c.spot == "hotspot") =
        cellsN 101 := by decide
    rw [hfilter]
    exact hstuck
  · decide


theorem allIter_nil (C : Clusterer) (eps : ℚ) :
    ∀ fl, allIter C eps fl [] = (some [], []) := by
  intro fl
  cases fl with
  | zero => rfl
  | succ fl => rfl

/-- C8: corrected empty-hotspot behaviour: `find_all_desired_areas`
returns the empty annotated table immediately with no DBSCAN calls, and so
does `find_n_desired_areas` with count 0; but with count at least 1,
`find_n_desired_areas` fails (the zero rounded step makes the descent
range invalid) before any DBSCAN call, instead of returning the empty
result. -/
theorem empty_hotspot_behavior (C : Clusterer) (gdf : List Cell) (eps : ℚ)
    (fuel k : Nat) (hhot : gdf.filter (fun c => c.spot == "hotspot") = []) :
    find_all_desired_areas fuel C gdf eps = (some [], []) ∧
    find_n_desired_areas C gdf 0 eps = (some [], []) ∧
    find_n_desired_areas C gdf (k + 1) eps = (none, []) := by
  refine ⟨?_, ?_, ?_⟩
  · simp [find_all_desired_areas, hhot, allIter_nil]
  · simp only [find_n_desired_areas, hhot]
    rfl
  · simp only [find_n_desired_areas, hhot]
    rfl

theorem empty_hotspot_behavior_witness :
    find_all_desired_areas 3 constNoiseC [coldCell] 1 = (some [], []) ∧
    find_n_desired_areas constNoiseC [coldCell] 0 1 = (some [], []) ∧
    find_n_desired_areas constNoiseC [coldCell] (0 + 1) 1 = (none, []) :=
  empty_hotspot_behavior constNoiseC [coldCell] 1 3 0 (by decide)

/-- C8 counterexample: on an input whose hotspot subset is empty,
`find_n_desired_areas` with the default count 1 does not return an
empty/unchanged result: it fails (zero descent step) before any DBSCAN
invocation. -/
theorem find_n_empty_error_cex :
    (find_n_desired_areas constNoiseC [coldCell] 1 1).1 = none ∧
    ([coldCell] : List Cell).filter (fun c => c.spot == "hotspot") = [] := by
  refine ⟨by decide, by decide⟩

theorem nIter_length (C : Clusterer) (eps : ℚ) :
    ∀ (k : Nat) (h : List Cell) (claims : List (List Nat)),
    (nIter C eps k h).1 = some claims → claims.length = k := by
  intro k
  induction k with
  | zero =>
    intro h claims hcl
    simp only [nIter, Option.some.injEq] at hcl
    rw [← hcl]
    rfl
  | succ k ih =>
    intro h claims hcl
    simp only [nIter] at hcl
    rcases hp : peelStep C eps h with ⟨o, cs⟩
    rw [hp] at hcl
    cases o with
    | none => simp at hcl
    | some p =>
      rcases p with ⟨cl, rem⟩
      dsimp only at hcl
      rcases hni : nIter C eps k rem with ⟨o2, cs2⟩
      rw [hni] at hcl
      cases o2 with
      | none => simp at hcl
      | some cls =>
        dsimp only at hcl
        rw [Option.some.injEq] at hcl
        rw [← hcl]
        simp only [List.length_cons]
        rw [ih rem cls (by rw [hni])]

/-- C7: corrected annotation property of `find_n_desired_areas`: whenever
all requested peel iterations succeed, the result is exactly the hotspot
rows of the original input, annotated with a `desired_area` flag that is
true precisely when the geohash of the row was claimed in one of the
`n_desired_areas` iterations; with count 0 the iterations trivially
succeed and every flag is false.  The claim that a result is returned for
every input fails: a non-empty hotspot subset of at most 100 cells makes
the first peel raise (see the counterexample). -/
theorem find_n_annotation_spec (C : Clusterer) (gdf : List Cell) (n : Nat)
    (eps : ℚ) (claims : List (List Nat))
    (h : (nIter C eps n (gdf.filter (fun c => c.spot == "hotspot"))).1 =
      some claims) :
    (find_n_desired_areas C gdf n eps).1 =
      some ((gdf.filter (fun c => c.spot == "hotspot")).map (fun c =>
        { c with desired_area := claims.flatten.contains c.geohash })) ∧
    claims.length = n ∧
    ∀ c ∈ gdf.filter (fun c => c.spot == "hotspot"),
      (claims.flatten.contains c.geohash = true ↔ ∃ l ∈ claims, c.geohash ∈ l) := by
  refine ⟨?_, nIter_length C eps n _ claims h, ?_⟩
  · simp only [find_n_desired_areas]
    rcases hni : nIter C eps n (gdf.filter (fun c => c.spot == "hotspot"))
      with ⟨o, cs⟩
    rw [hni] at h
    dsimp only at h
    rw [h]
  · intro c _
    rw [List.elem_iff, List.mem_flatten]

theorem find_n_annotation_spec_witness :
    ((find_n_desired_areas constNoiseC [hotTrueCell] 0 1).1 =
      some (([hotTrueCell].filter (fun c => c.spot == "hotspot")).map (fun c =>
        { c with desired_area :=
          (([] : List (List Nat)).flatten.contains c.geohash) }))) ∧
    ([] : List (List Nat)).length = 0 ∧
    ∀ c ∈ ([hotTrueCell] : List Cell).filter (fun c => c.spot == "hotspot"),
      ((([] : List (List Nat)).flatten.contains c.geohash = true) ↔
        ∃ l ∈ ([] : List (List Nat)), c.geohash ∈ l) :=
  find_n_annotation_spec constNoiseC [hotTrueCell] 0 1 [] rfl

/-- C7 counterexample: an input with exactly one hotspot cell and count 1
does not return the annotated hotspot table: the peel iteration fails
because the descent step rounds to 0. -/
theorem find_n_small_hotspot_cex :
    (find_n_desired_areas constNoiseC (cellsN 1) 1 1).1 = none ∧
    (cellsN 1).filter (fun c => c.spot == "hotspot") ≠ [] := by
  refine ⟨by decide, by decide⟩

theorem outerLoop_gdf_geo (C : Clusterer) (cents : List Nat) (eps : ℚ)
    (hC : ∀ n, (C cents eps n).length = cents.length) :
    ∀ (pl : List Nat) (st st' : DAState), st.gdf.length = cents.length →
    outerLoop C cents eps pl st = some st' →
    (st'.gdf.map Cell.geohash = st.gdf.map Cell.geohash ∧
     st'.gdf.map Cell.spot = st.gdf.map Cell.spot ∧
     st'.gdf.length = cents.length) := by
  intro pl
  induction pl with
  | nil =>
    intro st st' hlen h
    simp only [outerLoop, Option.some.injEq] at h
    rw [← h]
    exact ⟨rfl, rfl, hlen⟩
  | cons s rest ih =>
    intro st st' hlen h
    rcases hls : (innerScan C cents eps s
        (descRange st.start (st.stop - 1) s) st).1.lastScan with _ | ⟨n, cur⟩
    · simp only [outerLoop, hls] at h
      exact absurd h (by simp)
    · simp only [outerLoop, hls] at h
      obtain ⟨g1, g2, g3⟩ := innerScan_gdf_geo C cents eps s hC
        (descRange st.start (st.stop - 1) s) st hlen
      obtain ⟨j1, j2, j3⟩ := ih _ st' (by exact g3) h
      exact ⟨j1.trans g1, j2.trans g2, j3⟩

theorem dsn_geo (C : Clusterer) (gdf : List Cell) (eps : ℚ) (hC : CAligned C)
    (r : Nat) (g' : List Cell)
    (h : (_determine_start_neighbours C gdf eps).1 = some (r, g')) :
    g'.map Cell.geohash = gdf.map Cell.geohash := by
  obtain ⟨_, n, cs, hsn, _⟩ := dsn_fst_some C gdf eps r g' h
  exact (snLoop_mutation C (_generate_geohash_centroid gdf) eps
    (fun m => hC (_generate_geohash_centroid gdf) eps m) _ 1 gdf
    (by simp [_generate_geohash_centroid]) n g' (by rw [hsn])).1

theorem dda_geo (C : Clusterer) (gdf : List Cell) (sn : Nat) (eps : ℚ)
    (hC : CAligned C) (gD : List Cell)
    (h : (_determine_desired_area C gdf sn eps).1 = some gD) :
    gD.map Cell.geohash = gdf.map Cell.geohash := by
  simp only [_determine_desired_area] at h
  rcases hrun : _determine_desired_area_run C gdf sn eps with _ | st
  · rw [hrun] at h
    simp at h
  · rw [hrun] at h
    dsimp only at h
    rw [Option.some.injEq] at h
    rw [← h]
    exact (outerLoop_gdf_geo C (_generate_geohash_centroid gdf) eps
      (fun m => hC (_generate_geohash_centroid gdf) eps m) [5, 4, 3, 2, 1]
      ⟨sn, 1, none, gdf, [], []⟩ st
      (by simp [_generate_geohash_centroid]) hrun).1

theorem peel_partition (C : Clusterer) (eps : ℚ) (h : List Cell)
    (hC : CAligned C) (cl : List Nat) (rem : List Cell)
    (hp : (peelStep C eps h).1 = some (cl, rem)) :
    ∃ gD : List Cell,
      gD.map Cell.geohash = h.map Cell.geohash ∧
      cl = (gD.filter (fun c => ¬ c.cluster = some (-1))).map Cell.geohash ∧
      rem = (gD.filter (fun c => c.cluster = some (-1))).map
        (fun c => { c with cluster := none }) := by
  simp only [peelStep] at hp
  rcases hd : _determine_start_neighbours C h eps with ⟨o, cs⟩
  rw [hd] at hp
  cases o with
  | none => simp at hp
  | some p =>
    rcases p with ⟨sn, g1⟩
    dsimp only at hp
    rcases hd2 : _determine_desired_area C g1 sn eps with ⟨o2, cs2⟩
    rw [hd2] at hp
    cases o2 with
    | none => simp at hp
    | some gD =>
      dsimp only at hp
      rw [Option.some.injEq, Prod.mk.injEq] at hp
      refine ⟨gD, ?_, hp.1.symm, hp.2.symm⟩
      have e1 : g1.map Cell.geohash = h.map Cell.geohash :=
        dsn_geo C h eps hC sn g1 (by rw [hd])
      have e2 : gD.map Cell.geohash = g1.map Cell.geohash :=
        dda_geo C g1 sn eps hC gD (by rw [hd2])
      exact e2.trans e1

theorem map_geohash_erase_cluster (l : List Cell) :
    (l.map (fun c => { c with cluster := none })).map Cell.geohash =
      l.map Cell.geohash := by
  rw [List.map_map]
  rfl

theorem peel_geo_facts (C : Clusterer) (eps : ℚ) (h : List Cell)
    (hC : CAligned C) (hnd : (h.map Cell.geohash).Nodup)
    (cl : List Nat) (rem : List Cell)
    (hp : (peelStep C eps h).1 = some (cl, rem)) :
    (∀ g ∈ cl, g ∈ h.map Cell.geohash) ∧
    (∀ g ∈ rem.map Cell.geohash, g ∈ h.map Cell.geohash) ∧
    (rem.map Cell.geohash).Nodup ∧
    (∀ g ∈ cl, ¬ g ∈ rem.map Cell.geohash) := by
  obtain ⟨gD, hgeo, hcl, hrem⟩ := peel_partition C eps h hC cl rem hp
  have hndD : (gD.map Cell.geohash).Nodup := by
    rw [hgeo]
    exact hnd
  have hremgeo : rem.map Cell.geohash =
      (gD.filter (fun c => c.cluster = some (-1))).map Cell.geohash := by
    rw [hrem, map_geohash_erase_cluster]
  have hsubfilter : ∀ (p : Cell → Bool) (g : Nat),
      g ∈ (gD.filter p).map Cell.geohash → g ∈ h.map Cell.geohash := by
    intro p g hg
    rw [List.mem_map] at hg
    obtain ⟨c, hc, rfl⟩ := hg
    rw [← hgeo]
    exact List.mem_map_of_mem Cell.geohash (List.mem_filter.mp hc).1
  refine ⟨?_, ?_, ?_, ?_⟩
  · intro g hg
    rw [hcl] at hg
    exact hsubfilter _ g hg
  · intro g hg
    rw [hremgeo] at hg
    exact hsubfilter _ g hg
  · rw [hremgeo]
    exact List.Sublist.nodup
      (List.Sublist.map Cell.geohash (List.filter_sublist gD)) hndD
  · intro g hg1 hg2
    rw [hcl, List.mem_map] at hg1
    rw [hremgeo, List.mem_map] at hg2
    obtain ⟨c1, hc1, hgc1⟩ := hg1
    obtain ⟨c2, hc2, hgc2⟩ := hg2
    have hm1 := List.mem_filter.mp hc1
    have hm2 := List.mem_filter.mp hc2
    have hcc : c1 = c2 :=
      List.inj_on_of_nodup_map hndD hm1.1 hm2.1 (hgc1.trans hgc2.symm)
    have hp1 := hm1.2
    have hp2 := hm2.2
    rw [hcc] at hp1
    simp only [decide_eq_true_eq] at hp1 hp2
    exact hp1 hp2

theorem allIter_claims (C : Clusterer) (eps : ℚ) (hC : CAligned C) :
    ∀ (fl : Nat) (h : List Cell) (claims : List (List Nat)),
    (h.map Cell.geohash).Nodup →
    (allIter C eps fl h).1 = some claims →
    (∀ l ∈ claims, ∀ g ∈ l, g ∈ h.map Cell.geohash) ∧
    List.Pairwise (fun l1 l2 => ∀ g ∈ l1, g ∉ l2) claims := by
  intro fl
  induction fl with
  | zero =>
    intro h claims hnd hcl
    by_cases hh : h = []
    · simp only [allIter, if_pos hh, Option.some.injEq] at hcl
      rw [← hcl]
      exact ⟨by simp, by simp⟩
    · simp only [allIter, if_neg hh] at hcl
      simp at hcl
  | succ fl ih =>
    intro h claims hnd hcl
    by_cases hh : h = []
    · simp only [allIter, if_pos hh] at hcl
      rw [Option.some.injEq] at hcl
      rw [← hcl]
      exact ⟨by simp, by simp⟩
    · simp only [allIter, if_neg hh] at hcl
      rcases hp : peelStep C eps h with ⟨o, cs⟩
      rw [hp] at hcl
      cases o with
      | none => simp at hcl
      | some q =>
        rcases q with ⟨cl, rem⟩
        dsimp only at hcl
        rcases hai : allIter C eps fl rem with ⟨o2, cs2⟩
        rw [hai] at hcl
        cases o2 with
        | none => simp at hcl
        | some cls =>
          dsimp only at hcl
          rw [Option.some.injEq] at hcl
          obtain ⟨f1, f2, f3, f4⟩ :=
            peel_geo_facts C eps h hC hnd cl rem (by rw [hp])
          obtain ⟨g1, g2⟩ := ih rem cls f3 (by rw [hai])
          rw [← hcl]
          constructor
          · intro l hl g hg
            rcases List.mem_cons.mp hl with rfl | hl2
            · exact f1 g hg
            · exact f2 g (g1 l hl2 g hg)
          · rw [List.pairwise_cons]
            refine ⟨?_, g2⟩
            intro l2 hl2 g hg hgl2
            exact f4 g hg (g1 l2 hl2 g hgl2)

theorem rankAux_not_mem (g : Nat) : ∀ (cls : List (List Nat)) (i acc : Nat),
    (∀ l ∈ cls, g ∉ l) → rankAux g cls i acc = acc := by
  intro cls
  induction cls with
  | nil => intro i acc _; rfl
  | cons l rest ih =>
    intro i acc hnm
    have hcf : l.contains g = false := by
      rw [← Bool.not_eq_true, List.elem_iff]
      exact hnm l (List.mem_cons_self l rest)
    simp only [rankAux, hcf, Bool.false_eq_true, if_false]
    exact ih (i + 1) acc (fun l' hl' => hnm l' (List.mem_cons_of_mem l hl'))

theorem rankAux_unique (g : Nat) : ∀ (cls : List (List Nat)) (i k acc : Nat),
    i < cls.length → g ∈ cls.getD i [] →
    (∀ j, j < cls.length → j ≠ i → g ∉ cls.getD j []) →
    rankAux g cls k acc = k + i := by
  intro cls
  induction cls with
  | nil => intro i k acc hi; simp at hi
  | cons l rest ih =>
    intro i k acc hi hmem hun
    cases i with
    | zero =>
      rw [List.getD_cons_zero] at hmem
      have hct : l.contains g = true := by
        rw [List.elem_iff]
        exact hmem
      simp only [rankAux, hct, if_pos]
      rw [rankAux_not_mem g rest (k + 1) k ?_, Nat.add_zero]
      intro l' hl'
      obtain ⟨j, hj, hjl⟩ := List.mem_iff_getElem.mp hl'
      have := hun (j + 1) (by simp only [List.length_cons]; omega) (by omega)
      rw [List.getD_cons_succ, List.getD_eq_getElem rest [] hj, hjl] at this
      exact this
    | succ i =>
      rw [List.getD_cons_succ] at hmem
      have hcf : l.contains g = false := by
        rw [← Bool.not_eq_true, List.elem_iff]
        have := hun 0 (by simp) (by omega)
        rw [List.getD_cons_zero] at this
        exact this
      simp only [rankAux, hcf, Bool.false_eq_true, if_false]
      rw [ih i (k + 1) acc (by simpa using hi) hmem ?_]
      · omega
      · intro j hj hji
        have := hun (j + 1) (by simp only [List.length_cons]; omega) (by omega)
        rw [List.getD_cons_succ] at this
        exact this

/-- C1: in the table returned by `find_all_desired_areas` (whenever the
run terminates, for a clusterer honouring the index-alignment contract and
geohash-unique hotspot rows), every hotspot row whose geohash was claimed
in peel iteration i (1-based, element i - 1 of the iteration trace)
carries `rank_desired_area = i`, and every hotspot row never claimed in
any iteration carries `rank_desired_area = 0`. -/
theorem find_all_rank_spec (C : Clusterer) (gdf : List Cell) (eps : ℚ)
    (fuel : Nat) (claims : List (List Nat))
    (hC : CAligned C)
    (hnd : ((gdf.filter (fun c => c.spot == "hotspot")).map Cell.geohash).Nodup)
    (h : (allIter C eps fuel (gdf.filter (fun c => c.spot == "hotspot"))).1 =
      some claims) :
    (find_all_desired_areas fuel C gdf eps).1 =
      some ((gdf.filter (fun c => c.spot == "hotspot")).map (fun c =>
        { c with rank_desired_area := rankOf claims c.geohash })) ∧
    ∀ c ∈ gdf.filter (fun c => c.spot == "hotspot"),
      (∀ i, i < claims.length → c.geohash ∈ claims.getD i [] →
        rankOf claims c.geohash = i + 1) ∧
      ((∀ l ∈ claims, c.geohash ∉ l) → rankOf claims c.geohash = 0) := by
  constructor
  · simp only [find_all_desired_areas]
    rcases hai : allIter C eps fuel
        (gdf.filter (fun c => c.spot == "hotspot")) with ⟨o, cs⟩
    rw [hai] at h
    dsimp only at h
    rw [h]
  · obtain ⟨hsub, hpw⟩ := allIter_claims C eps hC fuel
      (gdf.filter (fun c => c.spot == "hotspot")) claims hnd h
    intro c _
    constructor
    · intro i hi hgi
      have hun : ∀ j, j < claims.length → j ≠ i →
          c.geohash ∉ claims.getD j [] := by
        intro j hj hji hmem2
        rcases Nat.lt_or_ge j i with hlt | hge
        · have hr := List.pairwise_iff_getElem.mp hpw j i hj hi hlt
          rw [List.getD_eq_getElem claims [] hj] at hmem2
          rw [List.getD_eq_getElem claims [] hi] at hgi
          exact hr c.geohash hmem2 hgi
        · have hlt2 : i < j := by omega
          have hr := List.pairwise_iff_getElem.mp hpw i j hi hj hlt2
          rw [List.getD_eq_getElem claims [] hj] at hmem2
          rw [List.getD_eq_getElem claims [] hi] at hgi
          exact hr c.geohash hgi hmem2
      rw [rankOf, rankAux_unique c.geohash claims i 1 0 hi hgi hun]
      omega
    · intro hnm
      exact rankAux_not_mem c.geohash claims 1 0 hnm

theorem find_all_rank_spec_witness :
    ((find_all_desired_areas 101 breakZeroC (cellsN 101) 1).1 =
      some (((cellsN 101).filter (fun c => c.spot == "hotspot")).map (fun c =>
        { c with rank_desired_area :=
          (rankOf [List.range 101] c.geohash) }))) ∧
    ∀ c ∈ (cellsN 101).filter (fun c => c.spot == "hotspot"),
      (∀ i, i < ([List.range 101] : List (List Nat)).length →
        c.geohash ∈ ([List.range 101] : List (List Nat)).getD i [] →
        rankOf [List.range 101] c.geohash = i + 1) ∧
      ((∀ l ∈ ([List.range 101] : List (List Nat)), c.geohash ∉ l) →
        rankOf [List.range 101] c.geohash = 0) :=
  find_all_rank_spec breakZeroC (cellsN 101) 1 101 [List.range 101]
    breakZeroC_aligned (by decide) (by decide)
